import Mathlib

/-
Verification development for the Bingo-Ferrari repository (src/main.py).

The program is a single-file Python trading monitor: an in-memory
hash-chained append-only ledger (`blockchain` / `create_block`), balance
snapshot dicts (`prev_balances`, `prev_onchain_btc`), a buy/sell decision
inlined in `monitor_loop`, and a small Flask API (`/saldo`, `/blockchain`,
`/ordem`).

Embedding conventions:
- Python floats are modelled as rationals (ℚ); the rendering of a finite
  float to its JSON text (Python float repr) is an abstract parameter
  `fr : ℚ → String`, and SHA-256 (hashlib, an external library) is an
  abstract parameter `sha : String → String`.
- Python dicts are modelled as ordered association lists with
  update-in-place-or-append semantics (`dictSet`), matching dict
  assignment, and `dictFind?`/`dictGet` matching `d[k]` / `d.get(k, v)`.
- The mutable globals (`blockchain`, `prev_balances`, `prev_onchain_btc`)
  are threaded as explicit state.
- Exceptions are modelled with `Except`: an `Except.error` escaping a
  handler models an unhandled Python exception.
-/

namespace Ferrari

/-- A JSON-serializable Python float: either a finite value or one of the
non-finite floats (nan, inf, -inf), which `json.dumps` in Python serializes
with `allow_nan=True` by default. -/
inductive JNum where
  | finite (q : ℚ)
  | nan
  | inf
  | neginf
deriving DecidableEq

/-- CPython json encoder behaviour for floats (`json.encoder.floatstr` with
the default `allow_nan=True`, as called by `json.dumps` in `create_block`):
non-finite floats serialize to the tokens NaN / Infinity / -Infinity, finite
floats to their repr, abstracted as the parameter `fr`. -/
def floatstr (fr : ℚ → String) : JNum → String
  | .finite q => fr q
  | .nan => "NaN"
  | .inf => "Infinity"
  | .neginf => "-Infinity"

/-- The operation dict passed to `create_block` in src/main.py:
a dict with keys side, asset, quantity, price. -/
structure Operation where
  side : String
  asset : String
  quantity : JNum
  price : JNum
deriving DecidableEq

/-- Embedding of `json.dumps(operation, sort_keys=True)` (src/main.py line 60)
on an operation dict. With `sort_keys=True` the keys appear in sorted order
asset < price < quantity < side; the default separators are comma-space and
colon-space. String values here are plain symbols (BUY/SELL/BTC), so JSON
string escaping is the identity on them. -/
def json_dumps (fr : ℚ → String) (op : Operation) : String :=
  "\x7b\"asset\": \"" ++ op.asset ++ "\", \"price\": " ++ floatstr fr op.price ++
    ", \"quantity\": " ++ floatstr fr op.quantity ++ ", \"side\": \"" ++ op.side ++ "\"\x7d"

/-- The genesis predecessor hash: the Python expression is the string of
64 zero characters (src/main.py line 59). -/
def genesis : String := String.mk (List.replicate 64 '0')

/-- A ledger block as constructed by `create_block` (src/main.py lines 62-67):
a dict with exactly the keys timestamp, operation, hash, prev_hash. -/
structure Block where
  timestamp : ℚ
  operation : Operation
  hash : String
  prev_hash : String
deriving DecidableEq

/-- The key set of the block dict literal built in `create_block`
(src/main.py lines 62-67). -/
def block_dict_keys : List String :=
  ["timestamp", "operation", "hash", "prev_hash"]

/-- The initial value of the module-level `blockchain` list (src/main.py
line 56). -/
def blockchain_init : List Block := []

/-- The expression `blockchain[-1]["hash"] if blockchain else "0"*64`
(src/main.py line 59). -/
def lastHash (chain : List Block) : String :=
  match chain.getLast? with
  | some b => b.hash
  | none => genesis

/-- Embedding of `create_block` (src/main.py lines 58-69): computes the
previous hash from the last stored block (genesis if the chain is empty),
serializes the operation with sorted keys, hashes prev_hash ++ data,
appends the new block to the chain and returns it. The wall-clock
`time.time()` value is the explicit argument `now`. -/
def create_block (sha : String → String) (fr : ℚ → String)
    (chain : List Block) (now : ℚ) (operation : Operation) : Block × List Block :=
  let prev_hash := lastHash chain
  let block_data := json_dumps fr operation
  let block_hash := sha (prev_hash ++ block_data)
  let block : Block :=
    { timestamp := now, operation := operation, hash := block_hash, prev_hash := prev_hash }
  (block, chain ++ [block])

/-- Running a sequence of `create_block` appends (each with its timestamp)
starting from the empty chain. -/
def run_chain (sha : String → String) (fr : ℚ → String)
    (ops : List (ℚ × Operation)) : List Block :=
  ops.foldl (fun c p => (create_block sha fr c p.1 p.2).2) blockchain_init

/-- The hash that the next appended block will link to, threaded through a
chain suffix: helper for reasoning about `verifyFrom`. -/
def lastHashFrom (p : String) : List Block → String
  | [] => p
  | b :: rest => lastHashFrom b.hash rest

/-- Checks a chain suffix given the hash of the block that precedes it:
each block must link to its predecessor and carry the hash of
prev_hash ++ serialized operation. -/
def verifyFrom (sha : String → String) (fr : ℚ → String) (prev : String) :
    List Block → Bool
  | [] => true
  | b :: rest =>
    (b.prev_hash == prev) &&
      (b.hash == sha (b.prev_hash ++ json_dumps fr b.operation)) &&
      verifyFrom sha fr b.hash rest

/-- Modelled from the spec: `verify()` is described in the spec (section 4.1)
but absent from src/main.py; it recomputes every block hash from its
prev_hash and operation and checks the prev_hash linkage, with the first
block linking to the genesis constant. Returns false on the first mismatch. -/
def verify (sha : String → String) (fr : ℚ → String) (chain : List Block) : Bool :=
  verifyFrom sha fr genesis chain

/-! ## Python dict model -/

/-- Python `d[k]` as an option: the value at the first (unique) matching key. -/
def dictFind? {α : Type} : List (String × α) → String → Option α
  | [], _ => none
  | p :: rest, k => if p.1 = k then some p.2 else dictFind? rest k

/-- Python `d.get(k, default)`. -/
def dictGet {α : Type} (d : List (String × α)) (k : String) (default : α) : α :=
  (dictFind? d k).getD default

/-- Python `k in d`. -/
def hasKey {α : Type} (d : List (String × α)) (k : String) : Bool :=
  (dictFind? d k).isSome

/-- Python `d[k] = v`: overwrite in place if the key exists (preserving
insertion order), otherwise append. -/
def dictSet {α : Type} : List (String × α) → String → α → List (String × α)
  | [], k, v => [(k, v)]
  | p :: rest, k, v => if p.1 = k then (k, v) :: rest else p :: dictSet rest k v

/-! ## Balance tracking -/

/-- Embedding of `get_nonzero_balances` (src/main.py lines 87-95): the
account balances list is a list of (asset, free, locked) entries; an entry
is recorded only when free + locked is strictly positive. -/
def get_nonzero_balances (balances : List (String × ℚ × ℚ)) : List (String × ℚ) :=
  balances.foldl
    (fun out b => if 0 < b.2.1 + b.2.2 then dictSet out b.1 (b.2.1 + b.2.2) else out) []

/-- The spot-balance writes of one poll cycle (src/main.py lines 157-166):
for each asset in the nonzero snapshot, `prev_balances[asset] = amount`.
Keys absent from the snapshot are never touched or deleted. -/
def update_spot (prev : List (String × ℚ)) (nonzero : List (String × ℚ)) :
    List (String × ℚ) :=
  nonzero.foldl (fun m p => dictSet m p.1 p.2) prev

/-- Embedding of `get_btc_onchain_balance` (src/main.py lines 128-134): the
explorer returns a balance in satoshis, divided by 1e8. No sign check is
performed. -/
def get_btc_onchain_balance (balance_sats : ℤ) : ℚ :=
  (balance_sats : ℚ) / (10 : ℚ) ^ 8

/-- The on-chain write of one poll cycle for one address (src/main.py
line 187): `prev_onchain_btc[addr] = bal`, unconditionally. -/
def update_onchain (prev : List (String × ℚ)) (addr : String) (bal : ℚ) :
    List (String × ℚ) :=
  dictSet prev addr bal

/-- Embedding of the `/saldo` GET handler (src/main.py lines 231-233):
returns the stored spot and on-chain maps as they are. -/
def api_saldo (spot : List (String × ℚ)) (onchain : List (String × ℚ)) :
    List (String × ℚ) × List (String × ℚ) :=
  (spot, onchain)

/-! ## Decision logic and trade step -/

/-- A proposed trade before submission. -/
structure TradeIntent where
  side : String
  asset : String
  quantity : ℚ
  price : ℚ
deriving DecidableEq

/-- The buy/sell decision inlined in `monitor_loop` (src/main.py
lines 194-212), extracted as a pure function of the price and the stored
spot balances: price must be positive; below 100000 with more than 10 BRL
it buys brl_balance / btc_price; above 120000 (an elif, so only when not
below 100000) with more than 0.0001 BTC it sells the whole BTC balance. -/
def decide (btc_price : ℚ) (prev_balances : List (String × ℚ)) : Option TradeIntent :=
  if 0 < btc_price then
    if btc_price < 100000 then
      let brl_balance := dictGet prev_balances "BRL" 0
      if 10 < brl_balance then
        some { side := "BUY", asset := "BTC",
               quantity := brl_balance / btc_price, price := btc_price }
      else none
    else if 120000 < btc_price then
      let btc_balance := dictGet prev_balances "BTC" 0
      if 0.0001 < btc_balance then
        some { side := "SELL", asset := "BTC",
               quantity := btc_balance, price := btc_price }
      else none
    else none
  else none

/-- Modelled from the spec: the decision policy exactly as the claim states
it — no intent for a non-positive price; a BUY intent of quote_balance /
price when the price is strictly below 100000 and the BRL balance strictly
above 10; otherwise a SELL intent of the whole BTC balance when the price
is strictly above 120000 and the BTC balance strictly above 0.0001; no
intent in all other cases. -/
def decide_spec (btc_price : ℚ) (spot : List (String × ℚ)) : Option TradeIntent :=
  if btc_price ≤ 0 then none
  else if btc_price < 100000 ∧ 10 < dictGet spot "BRL" 0 then
    some { side := "BUY", asset := "BTC",
           quantity := dictGet spot "BRL" 0 / btc_price, price := btc_price }
  else if 120000 < btc_price ∧ 0.0001 < dictGet spot "BTC" 0 then
    some { side := "SELL", asset := "BTC",
           quantity := dictGet spot "BTC" 0, price := btc_price }
  else none

/-- Result of `place_order` (an external call): the parsed JSON response on
success, or the raised exception message on failure. -/
inductive OrderResult where
  | ok (resp : String)
  | err (msg : String)
deriving DecidableEq

/-- The trade section of one `monitor_loop` cycle (src/main.py
lines 194-220), given the fetched BTC price and the stored balances:
mirrors the nested conditionals of the source. `submit` is the external
`place_order` collaborator (symbol, side, quantity). Returns the new chain
and the list of log-file entries written by `logging` calls (the inner
try/except logs an error and leaves the chain unchanged on submission
failure). -/
def trade_step (sha : String → String) (fr : ℚ → String)
    (submit : String → String → ℚ → OrderResult)
    (btc_price : ℚ) (prev_balances : List (String × ℚ))
    (chain : List Block) (now : ℚ) : List Block × List String :=
  if 0 < btc_price then
    if btc_price < 100000 then
      let brl_balance := dictGet prev_balances "BRL" 0
      if 10 < brl_balance then
        let qty_to_buy := brl_balance / btc_price
        match submit "BTCBRL" "BUY" qty_to_buy with
        | .ok _ =>
          let r := create_block sha fr chain now
            { side := "BUY", asset := "BTC",
              quantity := .finite qty_to_buy, price := .finite btc_price }
          (r.2, ["Compra BTC registrada no blockchain interno"])
        | .err e => (chain, ["Erro ao comprar BTC: " ++ e])
      else (chain, [])
    else if 120000 < btc_price then
      let btc_balance := dictGet prev_balances "BTC" 0
      if 0.0001 < btc_balance then
        match submit "BTCBRL" "SELL" btc_balance with
        | .ok _ =>
          let r := create_block sha fr chain now
            { side := "SELL", asset := "BTC",
              quantity := .finite btc_balance, price := .finite btc_price }
          (r.2, ["Venda BTC registrada no blockchain interno"])
        | .err e => (chain, ["Erro ao vender BTC: " ++ e])
      else (chain, [])
    else (chain, [])
  else (chain, [])

/-! ## The /ordem POST handler -/

/-- A JSON value in a request body, as produced by `request.json`. -/
inductive JVal where
  | jstr (s : String)
  | jnum (q : ℚ)
  | jbool (b : Bool)
  | jnull
deriving DecidableEq

/-- Python `x.upper()`: succeeds on strings, raises AttributeError on any
other value. -/
def pyupper : JVal → Except String String
  | .jstr s => .ok s.toUpper
  | _ => .error "AttributeError"

/-- Digits-to-number accumulator (only applied to checked digit lists). -/
def parseNatD (cs : List Char) : ℕ :=
  cs.foldl (fun n c => n * 10 + (c.toNat - 48)) 0

/-- Modelled simplification of Python `float(str)`: accepts an optional
sign followed by a plain decimal literal (digits with an optional
fractional part); exponents, inf/nan names, underscores and surrounding
whitespace are outside the model. `none` models a raised ValueError. -/
def pyfloat_of_string (s : String) : Option ℚ :=
  let core : List Char → Option ℚ := fun cs =>
    match cs.span Char.isDigit with
    | (ip, []) => if ip.isEmpty then none else some (parseNatD ip : ℚ)
    | (ip, '.' :: fp) =>
      if fp.all Char.isDigit && !(ip.isEmpty && fp.isEmpty) then
        some ((parseNatD ip : ℚ) + (parseNatD fp : ℚ) / (10 : ℚ) ^ fp.length)
      else none
    | _ => none
  match s.data with
  | '-' :: rest => (core rest).map (fun q => -q)
  | '+' :: rest => core rest
  | cs => core cs

/-- Python `float(x)` on a JSON value: numbers and booleans convert,
strings are parsed (ValueError on failure), null raises TypeError. -/
def pyfloat : JVal → Except String ℚ
  | .jnum q => .ok q
  | .jbool b => .ok (if b then 1 else 0)
  | .jstr s =>
    match pyfloat_of_string s with
    | some q => .ok q
    | none => .error "ValueError"
  | .jnull => .error "TypeError"

/-- The body of a `/ordem` response: either the error payload or the
order + block payload. -/
inductive ApiResp where
  | erro (msg : String)
  | ordem (order : String) (block : Block)
deriving DecidableEq

/-- Outcome of one `/ordem` request: the HTTP response (status code and
payload) when the handler returns, or `Except.error` when an exception
escapes the handler (an unhandled fault); plus the resulting chain and the
log entries written by the handler (the source handler contains no logging
call, so this component is always empty). -/
structure ApiResult where
  response : Except String (ℕ × ApiResp)
  chain : List Block
  log : List String

/-- Embedding of the `/ordem` POST handler `api_ordem` (src/main.py
lines 239-252). `data` is `request.json` (`none` models a null body);
a falsy or incomplete body returns a structured 400. Then — outside any
try/except — the handler evaluates `data["side"].upper()` and
`float(data["quantity"])`; an exception there escapes the handler. Inside
the try it fetches the BTC price (`get_brl_price` returns 0.0 instead of
raising, so it is the parameter `price`), submits the order and on success
appends a block; an exception in the try returns a structured 500. -/
def api_ordem (sha : String → String) (fr : ℚ → String)
    (submit : String → String → ℚ → OrderResult) (price : ℚ)
    (chain : List Block) (now : ℚ)
    (data : Option (List (String × JVal))) : ApiResult :=
  match data with
  | none => ⟨.ok (400, .erro "Envie JSON com side e quantity"), chain, []⟩
  | some d =>
    if d.isEmpty || !hasKey d "side" || !hasKey d "quantity" then
      ⟨.ok (400, .erro "Envie JSON com side e quantity"), chain, []⟩
    else
      match pyupper ((dictFind? d "side").getD .jnull) with
      | .error e => ⟨.error e, chain, []⟩
      | .ok side =>
        match pyfloat ((dictFind? d "quantity").getD .jnull) with
        | .error e => ⟨.error e, chain, []⟩
        | .ok qty =>
          match submit "BTCBRL" side qty with
          | .err e => ⟨.ok (500, .erro e), chain, []⟩
          | .ok order =>
            let r := create_block sha fr chain now
              { side := side, asset := "BTC",
                quantity := .finite qty, price := .finite price }
            ⟨.ok (200, .ordem order r.1), r.2, []⟩

/-! ## Witness instantiations (concrete stand-ins for the abstract
hash and float-rendering collaborators, used only to evaluate theorems
at concrete inputs) -/

/-- A concrete injective stand-in for the abstract hash function. -/
def wsha (s : String) : String := "H" ++ s

/-- A concrete stand-in for the float rendering. -/
def wfr (_ : ℚ) : String := "1.0"

def wop1 : Operation :=
  { side := "BUY", asset := "BTC", quantity := .finite 1, price := .finite 2 }

def wop2 : Operation :=
  { side := "SELL", asset := "BTC", quantity := .finite 3, price := .finite 4 }

def wops : List (ℚ × Operation) := [(0, wop1), (1, wop2)]

def wblk0 : Block := (create_block wsha wfr [] 0 wop1).1

def wblk1 : Block := (create_block wsha wfr (create_block wsha wfr [] 0 wop1).2 1 wop2).1

/-! ## Chain lemmas -/

theorem create_block_snoc (sha : String → String) (fr : ℚ → String)
    (chain : List Block) (now : ℚ) (op : Operation) :
    (create_block sha fr chain now op).2 = chain ++ [(create_block sha fr chain now op).1] :=
  rfl

theorem create_block_prev (sha : String → String) (fr : ℚ → String)
    (chain : List Block) (now : ℚ) (op : Operation) :
    (create_block sha fr chain now op).1.prev_hash = lastHash chain :=
  rfl

theorem create_block_hash (sha : String → String) (fr : ℚ → String)
    (chain : List Block) (now : ℚ) (op : Operation) :
    (create_block sha fr chain now op).1.hash = sha (lastHash chain ++ json_dumps fr op) :=
  rfl

theorem create_block_op (sha : String → String) (fr : ℚ → String)
    (chain : List Block) (now : ℚ) (op : Operation) :
    (create_block sha fr chain now op).1.operation = op :=
  rfl

theorem lastHash_concat (c : List Block) (b : Block) : lastHash (c ++ [b]) = b.hash := by
  simp [lastHash, List.getLast?_concat]

theorem lastHashFrom_concat : ∀ (c : List Block) (p : String) (b : Block),
    lastHashFrom p (c ++ [b]) = b.hash := by
  intro c
  induction c with
  | nil => intro p b; rfl
  | cons x xs ih => intro p b; exact ih x.hash b

theorem lastHashFrom_genesis (c : List Block) : lastHashFrom genesis c = lastHash c := by
  induction c using List.reverseRecOn with
  | nil => rfl
  | append_singleton xs x _ => rw [lastHashFrom_concat, lastHash_concat]

theorem verifyFrom_concat (sha : String → String) (fr : ℚ → String) :
    ∀ (c : List Block) (p : String) (b : Block),
      b.prev_hash = lastHashFrom p c →
      b.hash = sha (b.prev_hash ++ json_dumps fr b.operation) →
      verifyFrom sha fr p c = true →
      verifyFrom sha fr p (c ++ [b]) = true := by
  intro c
  induction c with
  | nil =>
    intro p b h1 h2 _
    simp only [List.nil_append, verifyFrom, Bool.and_eq_true, beq_iff_eq]
    exact ⟨⟨h1, h2⟩, trivial⟩
  | cons x xs ih =>
    intro p b h1 h2 hv
    simp only [verifyFrom, Bool.and_eq_true, beq_iff_eq] at hv
    simp only [List.cons_append, verifyFrom, Bool.and_eq_true, beq_iff_eq]
    exact ⟨hv.1, ih x.hash b h1 h2 hv.2⟩

theorem run_chain_concat (sha : String → String) (fr : ℚ → String)
    (ops : List (ℚ × Operation)) (o : ℚ × Operation) :
    run_chain sha fr (ops ++ [o]) = (create_block sha fr (run_chain sha fr ops) o.1 o.2).2 := by
  simp [run_chain, List.foldl_append]

theorem run_chain_verified (sha : String → String) (fr : ℚ → String)
    (ops : List (ℚ × Operation)) :
    verifyFrom sha fr genesis (run_chain sha fr ops) = true := by
  induction ops using List.reverseRecOn with
  | nil => rfl
  | append_singleton ops o ih =>
    rw [run_chain_concat, create_block_snoc]
    refine verifyFrom_concat sha fr _ genesis _ ?_ ?_ ih
    · rw [create_block_prev]
      exact (lastHashFrom_genesis _).symm
    · rw [create_block_hash, create_block_prev, create_block_op]

theorem verifyFrom_hash (sha : String → String) (fr : ℚ → String) :
    ∀ (bs : List Block) (p : String), verifyFrom sha fr p bs = true →
      ∀ (i : ℕ) (b : Block), bs[i]? = some b → b.hash = sha (b.prev_hash ++ json_dumps fr b.operation) := by
  intro bs
  induction bs with
  | nil => intro p _ i b h; simp at h
  | cons x xs ih =>
    intro p hv i b hb
    simp only [verifyFrom, Bool.and_eq_true, beq_iff_eq] at hv
    cases i with
    | zero =>
      simp only [List.getElem?_cons_zero, Option.some_inj] at hb
      rw [← hb]
      exact hv.1.2
    | succ j =>
      simp only [List.getElem?_cons_succ] at hb
      exact ih x.hash hv.2 j b hb

theorem verifyFrom_zero (sha : String → String) (fr : ℚ → String) :
    ∀ (bs : List Block) (p : String), verifyFrom sha fr p bs = true →
      ∀ (b : Block), bs[0]? = some b → b.prev_hash = p := by
  intro bs
  cases bs with
  | nil => intro p _ b h; simp at h
  | cons x xs =>
    intro p hv b hb
    simp only [verifyFrom, Bool.and_eq_true, beq_iff_eq] at hv
    simp only [List.getElem?_cons_zero, Option.some_inj] at hb
    rw [← hb]
    exact hv.1.1

theorem verifyFrom_link (sha : String → String) (fr : ℚ → String) :
    ∀ (bs : List Block) (p : String), verifyFrom sha fr p bs = true →
      ∀ (i : ℕ) (a b : Block), bs[i]? = some a → bs[i + 1]? = some b → b.prev_hash = a.hash := by
  intro bs
  induction bs with
  | nil => intro p _ i a b h; simp at h
  | cons x xs ih =>
    intro p hv i a b ha hb
    simp only [verifyFrom, Bool.and_eq_true, beq_iff_eq] at hv
    cases i with
    | zero =>
      simp only [List.getElem?_cons_zero, Option.some_inj] at ha
      simp only [List.getElem?_cons_succ] at hb
      rw [← ha]
      exact verifyFrom_zero sha fr xs x.hash hv.2 b hb
    | succ j =>
      simp only [List.getElem?_cons_succ] at ha hb
      exact ih x.hash hv.2 j a b ha hb

/-! ## Claim C1 -/

/-- C1: starting from the empty chain, after any sequence of `create_block`
appends every stored block satisfies
hash = SHA256(prev_hash ++ sorted-key JSON of its operation), each block
after the first links to the hash of its predecessor, the first block links
to the genesis constant (64 zero characters), and the spec-modelled `verify`
returns true. -/
theorem C1_hash_chain_invariant (sha : String → String) (fr : ℚ → String)
    (ops : List (ℚ × Operation)) :
    verify sha fr (run_chain sha fr ops) = true ∧
    (∀ (i : ℕ) (b : Block), (run_chain sha fr ops)[i]? = some b →
      b.hash = sha (b.prev_hash ++ json_dumps fr b.operation)) ∧
    (∀ (i : ℕ) (a b : Block), (run_chain sha fr ops)[i]? = some a →
      (run_chain sha fr ops)[i + 1]? = some b → b.prev_hash = a.hash) ∧
    (∀ (b : Block), (run_chain sha fr ops)[0]? = some b → b.prev_hash = genesis) := by
  have hv := run_chain_verified sha fr ops
  exact ⟨hv, verifyFrom_hash sha fr _ genesis hv, verifyFrom_link sha fr _ genesis hv,
    verifyFrom_zero sha fr _ genesis hv⟩

/-- Witness for C1: evaluated on a concrete two-append run with a concrete
hash stand-in, the second block links to the hash of the first and the
first links to genesis. -/
theorem C1_hash_chain_invariant_witness :
    (run_chain wsha wfr wops)[0]? = some wblk0 ∧
    (run_chain wsha wfr wops)[1]? = some wblk1 ∧
    wblk1.prev_hash = wblk0.hash ∧
    wblk0.prev_hash = genesis :=
  ⟨rfl, rfl,
    (C1_hash_chain_invariant wsha wfr wops).2.2.1 0 wblk0 wblk1 rfl rfl,
    (C1_hash_chain_invariant wsha wfr wops).2.2.2 wblk0 rfl⟩

/-! ## String cancellation helpers -/

theorem str_data_inj {a b : String} (h : a.data = b.data) : a = b := by
  cases a; cases b; exact congrArg String.mk h

theorem str_append_right_cancel {a b c : String} (h : a ++ c = b ++ c) : a = b := by
  have h2 := congrArg String.data h
  rw [String.data_append, String.data_append] at h2
  exact str_data_inj (List.append_cancel_right h2)

theorem wsha_injective : Function.Injective wsha := by
  intro a b h
  have h2 := congrArg String.data h
  simp only [wsha, String.data_append] at h2
  exact str_data_inj (List.append_cancel_left h2)

/-! ## Claim C8 -/

/-- C8: appending the same operation content twice yields a second block
whose prev_hash is the hash of the first block; under the modelling assumptions
that the hash function is collision-free (injective) and maps the first
input away from the current chain tip, the two blocks have different
prev_hash values and different hash values, so the chain is
position-sensitive. -/
theorem C8_position_sensitive (sha : String → String) (fr : ℚ → String)
    (chain : List Block) (t1 t2 : ℚ) (op : Operation)
    (hinj : Function.Injective sha)
    (hnf : sha (lastHash chain ++ json_dumps fr op) ≠ lastHash chain) :
    (create_block sha fr (create_block sha fr chain t1 op).2 t2 op).1.prev_hash
        = (create_block sha fr chain t1 op).1.hash ∧
    (create_block sha fr chain t1 op).1.prev_hash
        ≠ (create_block sha fr (create_block sha fr chain t1 op).2 t2 op).1.prev_hash ∧
    (create_block sha fr chain t1 op).1.hash
        ≠ (create_block sha fr (create_block sha fr chain t1 op).2 t2 op).1.hash ∧
    (create_block sha fr chain t1 op).1
        ≠ (create_block sha fr (create_block sha fr chain t1 op).2 t2 op).1 := by
  have hprev2 : (create_block sha fr (create_block sha fr chain t1 op).2 t2 op).1.prev_hash
      = (create_block sha fr chain t1 op).1.hash := by
    rw [create_block_prev, create_block_snoc, lastHash_concat]
  have hhash1 : (create_block sha fr chain t1 op).1.hash
      = sha (lastHash chain ++ json_dumps fr op) := rfl
  have hprev1 : (create_block sha fr chain t1 op).1.prev_hash = lastHash chain := rfl
  have hhash2 : (create_block sha fr (create_block sha fr chain t1 op).2 t2 op).1.hash
      = sha ((create_block sha fr chain t1 op).1.hash ++ json_dumps fr op) := by
    rw [create_block_hash, create_block_snoc, lastHash_concat]
  refine ⟨hprev2, ?_, ?_, ?_⟩
  · rw [hprev1, hprev2, hhash1]
    exact fun h => hnf h.symm
  · rw [hhash2, hhash1]
    intro h
    have h2 := hinj h
    have h3 := str_append_right_cancel h2
    exact hnf h3.symm
  · intro h
    have h2 := congrArg Block.prev_hash h
    rw [hprev1, hprev2, hhash1] at h2
    exact hnf h2.symm

/-- Witness for C8: with the concrete injective hash stand-in, the two
blocks obtained by appending the same operation twice from the empty chain
have different hash values. -/
theorem C8_position_sensitive_witness :
    Function.Injective wsha ∧
    wsha (lastHash [] ++ json_dumps wfr wop1) ≠ lastHash [] ∧
    (create_block wsha wfr [] 0 wop1).1.hash
      ≠ (create_block wsha wfr (create_block wsha wfr [] 0 wop1).2 1 wop1).1.hash :=
  ⟨wsha_injective, by decide,
    (C8_position_sensitive wsha wfr [] 0 1 wop1 wsha_injective (by decide)).2.2.1⟩

/-! ## Claim C4 -/

theorem run_chain_length (sha : String → String) (fr : ℚ → String)
    (ops : List (ℚ × Operation)) : (run_chain sha fr ops).length = ops.length := by
  induction ops using List.reverseRecOn with
  | nil => rfl
  | append_singleton ops o ih =>
    rw [run_chain_concat, create_block_snoc]
    simp [ih]

/-- C4 counterexample: the block dict built by `create_block` has no
sequence_index key — its keys are exactly timestamp, operation, hash,
prev_hash. -/
theorem C4_counterexample : "sequence_index" ∉ block_dict_keys := by
  decide

/-- C4 amended: blocks carry no sequence_index field (the block dict keys
are timestamp, operation, hash, prev_hash only); nevertheless the chain is
addressable by list position: any run of N appends yields a chain of
length N whose i-th block holds the i-th appended operation and its
timestamp, so positions form the consecutive run 0, 1, 2, ... -/
theorem C4_indexed_chain (sha : String → String) (fr : ℚ → String)
    (ops : List (ℚ × Operation)) :
    "sequence_index" ∉ block_dict_keys ∧
    (run_chain sha fr ops).length = ops.length ∧
    (∀ (i : ℕ) (o : ℚ × Operation) (b : Block), ops[i]? = some o →
      (run_chain sha fr ops)[i]? = some b →
      b.operation = o.2 ∧ b.timestamp = o.1) := by
  refine ⟨by decide, run_chain_length sha fr ops, ?_⟩
  induction ops using List.reverseRecOn with
  | nil => intro i o b h1 _; simp at h1
  | append_singleton ops o ih =>
    intro i oo b h1 h2
    rw [run_chain_concat, create_block_snoc] at h2
    rcases Nat.lt_trichotomy i ops.length with hlt | heq | hgt
    · rw [List.getElem?_append_left hlt] at h1
      rw [List.getElem?_append_left (by rw [run_chain_length]; exact hlt)] at h2
      exact ih i oo b h1 h2
    · rw [heq, List.getElem?_concat_length] at h1
      rw [heq, ← run_chain_length sha fr ops, List.getElem?_concat_length] at h2
      obtain rfl : o = oo := by injection h1
      obtain rfl : (create_block sha fr (run_chain sha fr ops) o.1 o.2).1 = b := by
        injection h2
      exact ⟨rfl, rfl⟩
    · have h1none : (ops ++ [o])[i]? = none := by
        apply List.getElem?_eq_none
        simp only [List.length_append, List.length_singleton]
        omega
      rw [h1none] at h1
      exact absurd h1 (by simp)

/-- Witness for C4: on a concrete two-operation run, the block at index 1
holds the second appended operation. -/
theorem C4_indexed_chain_witness :
    wops[1]? = some ((1 : ℚ), wop2) ∧
    (run_chain wsha wfr wops)[1]? = some wblk1 ∧
    wblk1.operation = wop2 :=
  ⟨rfl, rfl, ((C4_indexed_chain wsha wfr wops).2.2 1 (1, wop2) wblk1 rfl rfl).1⟩

/-! ## Claim C5 -/

/-- An operation with a non-finite numeric field. -/
def opNaN : Operation :=
  { side := "BUY", asset := "BTC", quantity := .nan, price := .finite 100000 }

/-- C5 counterexample: appending an operation whose quantity is NaN does
not fail and does not leave the chain unchanged — `json.dumps` (with its
default allow_nan) serializes the quantity as the token NaN, and
`create_block` computes a hash over that serialization and appends a
block, growing the chain from 0 to 1 blocks. No MalformedOperation error
exists in the code. -/
theorem C5_counterexample :
    (create_block wsha wfr [] 0 opNaN).2.length = 1 ∧
    (create_block wsha wfr [] 0 opNaN).1.operation.quantity = JNum.nan ∧
    json_dumps wfr opNaN =
      "\x7b\"asset\": \"BTC\", \"price\": 1.0, \"quantity\": NaN, \"side\": \"BUY\"\x7d" ∧
    (create_block wsha wfr [] 0 opNaN).1.hash = wsha (genesis ++ json_dumps wfr opNaN) :=
  ⟨rfl, rfl, rfl, rfl⟩

/-- C5 amended: `create_block` never rejects an operation. For every
operation, including ones with non-finite numeric fields, it appends
exactly one block carrying that operation; the json encoder serializes the
non-finite floats as the tokens NaN / Infinity / -Infinity instead of
raising. -/
theorem C5_append_total (sha : String → String) (fr : ℚ → String)
    (chain : List Block) (now : ℚ) (op : Operation) :
    (create_block sha fr chain now op).2 = chain ++ [(create_block sha fr chain now op).1] ∧
    (create_block sha fr chain now op).1.operation = op ∧
    floatstr fr .nan = "NaN" ∧
    floatstr fr .inf = "Infinity" ∧
    floatstr fr .neginf = "-Infinity" :=
  ⟨rfl, rfl, rfl, rfl, rfl⟩

/-! ## Claim C9 -/

/-- C9: the ledger is append-only. The module-level chain starts empty;
`create_block` returns the new chain as the old chain plus exactly one new
block at the end (so every previously stored block is unchanged in content
and position) and returns that block, which is the stored last element;
and the two operations of the system that touch the chain (the poll-cycle
trade step and the /ordem handler) either leave it unchanged or append
exactly one block at the end. -/
theorem C9_append_only (sha : String → String) (fr : ℚ → String)
    (chain : List Block) (now : ℚ) (op : Operation)
    (submit : String → String → ℚ → OrderResult) (btc_price : ℚ)
    (bal : List (String × ℚ)) (price : ℚ) (data : Option (List (String × JVal))) :
    blockchain_init = ([] : List Block) ∧
    (create_block sha fr chain now op).2 = chain ++ [(create_block sha fr chain now op).1] ∧
    ((create_block sha fr chain now op).2).getLast? = some (create_block sha fr chain now op).1 ∧
    ((trade_step sha fr submit btc_price bal chain now).1 = chain ∨
      ∃ b, (trade_step sha fr submit btc_price bal chain now).1 = chain ++ [b]) ∧
    ((api_ordem sha fr submit price chain now data).chain = chain ∨
      ∃ b, (api_ordem sha fr submit price chain now data).chain = chain ++ [b]) := by
  refine ⟨rfl, rfl, ?_, ?_, ?_⟩
  · rw [create_block_snoc]
    simp [List.getLast?_concat]
  · simp only [trade_step]
    repeat' split
    all_goals first
      | exact Or.inl rfl
      | exact Or.inr ⟨_, rfl⟩
  · simp only [api_ordem]
    repeat' split
    all_goals first
      | exact Or.inl rfl
      | exact Or.inr ⟨_, rfl⟩

/-! ## Claim C3 -/

/-- C3: the decision logic of the monitor loop agrees everywhere with the
policy as the spec states it — no intent for a non-positive price, a BUY
intent of quote_balance / price exactly when price < 100000 and the BRL
balance exceeds 10, otherwise a SELL intent of the whole BTC balance
exactly when price > 120000 and the BTC balance exceeds 0.0001, and no
intent anywhere else, in particular on the closed band [100000, 120000]
and at the exact thresholds. -/
theorem C3_decision_policy (btc_price : ℚ) (spot : List (String × ℚ)) :
    Ferrari.decide btc_price spot = decide_spec btc_price spot := by
  simp only [Ferrari.decide, decide_spec]
  split_ifs <;> first
    | rfl
    | tauto
    | (exfalso; linarith)

/-! ## Dict lemmas -/

theorem dictFind?_set_self {α : Type} (d : List (String × α)) (k : String) (v : α) :
    dictFind? (dictSet d k v) k = some v := by
  induction d with
  | nil => simp [dictSet, dictFind?]
  | cons p rest ih =>
    by_cases h : p.1 = k
    · simp [dictSet, h, dictFind?]
    · simp [dictSet, h, dictFind?, ih]

theorem dictFind?_set_ne {α : Type} (d : List (String × α)) (k a : String) (v : α)
    (hka : k ≠ a) : dictFind? (dictSet d k v) a = dictFind? d a := by
  induction d with
  | nil => simp [dictSet, dictFind?, hka]
  | cons p rest ih =>
    by_cases h : p.1 = k
    · simp [dictSet, h, dictFind?, hka]
    · by_cases h2 : p.1 = a
      · simp [dictSet, h, dictFind?, h2, Ne.symm hka]
      · simp [dictSet, h, dictFind?, h2, ih]

theorem dictGet_set_self {α : Type} (d : List (String × α)) (k : String) (v dflt : α) :
    dictGet (dictSet d k v) k dflt = v := by
  simp [dictGet, dictFind?_set_self]

theorem dictGet_set_ne {α : Type} (d : List (String × α)) (k a : String) (v dflt : α)
    (hka : k ≠ a) : dictGet (dictSet d k v) a dflt = dictGet d a dflt := by
  simp [dictGet, dictFind?_set_ne d k a v hka]

theorem mem_dictSet {α : Type} (d : List (String × α)) (k : String) (v : α)
    (p : String × α) : p ∈ dictSet d k v → p = (k, v) ∨ p ∈ d := by
  induction d with
  | nil => intro h; simp [dictSet] at h; exact Or.inl h
  | cons q rest ih =>
    intro h
    by_cases hq : q.1 = k
    · rw [dictSet, if_pos hq] at h
      rcases List.mem_cons.mp h with h1 | h2
      · exact Or.inl h1
      · exact Or.inr (List.mem_cons_of_mem _ h2)
    · rw [dictSet, if_neg hq] at h
      rcases List.mem_cons.mp h with h1 | h2
      · exact Or.inr (h1 ▸ List.mem_cons_self _ _)
      · rcases ih h2 with h3 | h4
        · exact Or.inl h3
        · exact Or.inr (List.mem_cons_of_mem _ h4)

/-! ## Balance update lemmas -/

theorem get_nonzero_aux_pos (bal : List (String × ℚ × ℚ)) :
    ∀ (acc : List (String × ℚ)), (∀ p ∈ acc, 0 < p.2) →
      ∀ p ∈ bal.foldl
        (fun out b => if 0 < b.2.1 + b.2.2 then dictSet out b.1 (b.2.1 + b.2.2) else out) acc,
        0 < p.2 := by
  induction bal with
  | nil => intro acc hacc p hp; exact hacc p hp
  | cons b rest ih =>
    intro acc hacc p hp
    simp only [List.foldl_cons] at hp
    by_cases hb : 0 < b.2.1 + b.2.2
    · rw [if_pos hb] at hp
      refine ih _ ?_ p hp
      intro q hq
      rcases mem_dictSet _ _ _ q hq with heq | hq2
      · rw [heq]; exact hb
      · exact hacc q hq2
    · rw [if_neg hb] at hp
      exact ih acc hacc p hp

theorem get_nonzero_aux_ne (a : String) (bal : List (String × ℚ × ℚ)) :
    ∀ (acc : List (String × ℚ)),
      (∀ f l, (a, f, l) ∈ bal → f + l ≤ 0) → (∀ p ∈ acc, p.1 ≠ a) →
      ∀ p ∈ bal.foldl
        (fun out b => if 0 < b.2.1 + b.2.2 then dictSet out b.1 (b.2.1 + b.2.2) else out) acc,
        p.1 ≠ a := by
  induction bal with
  | nil => intro acc _ hacc p hp; exact hacc p hp
  | cons b rest ih =>
    intro acc hneg hacc p hp
    simp only [List.foldl_cons] at hp
    by_cases hb : 0 < b.2.1 + b.2.2
    · rw [if_pos hb] at hp
      refine ih _ (fun f l hfl => hneg f l (List.mem_cons_of_mem _ hfl)) ?_ p hp
      intro q hq
      rcases mem_dictSet _ _ _ q hq with heq | hq2
      · rw [heq]
        intro hqa
        have hmem : (a, b.2.1, b.2.2) ∈ b :: rest := by
          rw [← hqa]
          exact List.mem_cons_self _ _
        have := hneg b.2.1 b.2.2 hmem
        linarith
      · exact hacc q hq2
    · rw [if_neg hb] at hp
      exact ih acc (fun f l hfl => hneg f l (List.mem_cons_of_mem _ hfl)) hacc p hp

theorem get_nonzero_balances_pos (bal : List (String × ℚ × ℚ)) :
    ∀ p ∈ get_nonzero_balances bal, 0 < p.2 :=
  get_nonzero_aux_pos bal [] (by intro p hp; simp at hp)

theorem get_nonzero_balances_ne (a : String) (bal : List (String × ℚ × ℚ))
    (hneg : ∀ f l, (a, f, l) ∈ bal → f + l ≤ 0) :
    ∀ p ∈ get_nonzero_balances bal, p.1 ≠ a :=
  get_nonzero_aux_ne a bal [] hneg (by intro p hp; simp at hp)

theorem update_spot_not_mem (nz : List (String × ℚ)) :
    ∀ (prev : List (String × ℚ)) (a : String) (dflt : ℚ),
      (∀ p ∈ nz, p.1 ≠ a) →
      dictGet (update_spot prev nz) a dflt = dictGet prev a dflt := by
  induction nz with
  | nil => intro prev a dflt _; rfl
  | cons p rest ih =>
    intro prev a dflt h
    have step : update_spot prev (p :: rest) = update_spot (dictSet prev p.1 p.2) rest := rfl
    rw [step, ih (dictSet prev p.1 p.2) a dflt (fun q hq => h q (List.mem_cons_of_mem _ hq))]
    exact dictGet_set_ne prev p.1 a p.2 dflt (h p (List.mem_cons_self _ _))

/-! ## Claim C10 -/

/-- C10: the spot update of a poll cycle writes only assets whose fetched
free + locked total is strictly positive and never deletes a stored key;
for an asset whose fetched entries are all non-positive (or which is absent
from the fetch entirely), the previously stored value is retained
unchanged, and the `/saldo` handler serves that retained (stale) value. -/
theorem C10_stale_balances (prev : List (String × ℚ)) (bal : List (String × ℚ × ℚ))
    (a : String) (oc : List (String × ℚ))
    (hzero : ∀ f l, (a, f, l) ∈ bal → f + l ≤ 0) :
    (∀ p ∈ get_nonzero_balances bal, 0 < p.2) ∧
    dictGet (update_spot prev (get_nonzero_balances bal)) a 0 = dictGet prev a 0 ∧
    dictGet (api_saldo (update_spot prev (get_nonzero_balances bal)) oc).1 a 0
      = dictGet prev a 0 := by
  have hret := update_spot_not_mem (get_nonzero_balances bal) prev a 0
    (get_nonzero_balances_ne a bal hzero)
  exact ⟨get_nonzero_balances_pos bal, hret, hret⟩

/-- Witness for C10: with 50 BRL stored and a fetch that no longer lists
BRL at all, the stored BRL balance stays 50 after the cycle. -/
theorem C10_stale_balances_witness :
    (∀ f l : ℚ, ("BRL", f, l) ∈ [("ETH", (2 : ℚ), (0 : ℚ))] → f + l ≤ 0) ∧
    dictGet (update_spot [("BRL", (50 : ℚ))] (get_nonzero_balances [("ETH", 2, 0)])) "BRL" 0
      = dictGet [("BRL", (50 : ℚ))] "BRL" 0 ∧
    dictGet [("BRL", (50 : ℚ))] "BRL" 0 = 50 := by
  have hz : ∀ f l : ℚ, ("BRL", f, l) ∈ [("ETH", (2 : ℚ), (0 : ℚ))] → f + l ≤ 0 := by
    intro f l h
    rw [List.mem_singleton] at h
    have h2 : ("BRL" : String) = "ETH" := congrArg Prod.fst h
    exact absurd h2 (by decide)
  exact ⟨hz, (C10_stale_balances [("BRL", 50)] [("ETH", 2, 0)] "BRL" [] hz).2.1, rfl⟩

/-! ## Claim C7 -/

/-- C7 counterexample: a negative observed on-chain balance (-0.5 BTC, from
a negative satoshi value reported by the explorer) is stored as-is by the
on-chain update of the cycle, overwriting the previously stored 5 — it is not
rejected, no DataIntegrityError exists in the code, and the prior value is
not retained. -/
theorem C7_counterexample :
    get_btc_onchain_balance (-50000000) = -(1 / 2 : ℚ) ∧
    update_onchain [("addrA", (5 : ℚ))] "addrA" (get_btc_onchain_balance (-50000000))
      = [("addrA", -(1 / 2 : ℚ))] ∧
    dictGet (update_onchain [("addrA", (5 : ℚ))] "addrA" (get_btc_onchain_balance (-50000000)))
      "addrA" 0 = -(1 / 2 : ℚ) := by
  refine ⟨?_, ?_, ?_⟩ <;>
    norm_num [get_btc_onchain_balance, update_onchain, dictSet, dictGet, dictFind?]

/-- C7 amended: no balance validation exists. The on-chain update stores any
observed amount, negative included, overwriting the prior value and raising
no error; the spot update silently excludes non-positive totals (so only
strictly positive amounts are stored and the prior value is retained for
the others), also without surfacing or logging any error. -/
theorem C7_negative_balances (prev : List (String × ℚ)) (addr : String) (bal : ℚ)
    (prev2 : List (String × ℚ)) (acct : List (String × ℚ × ℚ)) (a : String)
    (hneg : ∀ f l, (a, f, l) ∈ acct → f + l ≤ 0) :
    dictGet (update_onchain prev addr bal) addr 0 = bal ∧
    (∀ p ∈ get_nonzero_balances acct, 0 < p.2) ∧
    dictGet (update_spot prev2 (get_nonzero_balances acct)) a 0 = dictGet prev2 a 0 :=
  ⟨dictGet_set_self prev addr bal 0, get_nonzero_balances_pos acct,
    update_spot_not_mem (get_nonzero_balances acct) prev2 a 0
      (get_nonzero_balances_ne a acct hneg)⟩

/-- Witness for C7 amended: storing a negative on-chain amount succeeds and
the stored value is the negative amount itself. -/
theorem C7_negative_balances_witness :
    (∀ f l : ℚ, ("BRL", f, l) ∈ ([] : List (String × ℚ × ℚ)) → f + l ≤ 0) ∧
    dictGet (update_onchain [] "addrA" (-(1 / 2 : ℚ))) "addrA" 0 = -(1 / 2 : ℚ) :=
  ⟨fun _ _ h => absurd h (List.not_mem_nil _),
    (C7_negative_balances [] "addrA" (-(1 / 2)) [] [] "BRL"
      (fun _ _ h => absurd h (List.not_mem_nil _))).1⟩

/-! ## Bridges between the decision function and the executing code -/

/-- The operation dict recorded for a submitted intent (the literal dicts
at src/main.py lines 203, 215 and 249). -/
def opOf (it : TradeIntent) : Operation :=
  { side := it.side, asset := it.asset,
    quantity := .finite it.quantity, price := .finite it.price }

theorem trade_step_eq (sha : String → String) (fr : ℚ → String)
    (submit : String → String → ℚ → OrderResult) (btc_price : ℚ)
    (bal : List (String × ℚ)) (chain : List Block) (now : ℚ) :
    trade_step sha fr submit btc_price bal chain now =
      match Ferrari.decide btc_price bal with
      | none => (chain, [])
      | some it =>
        match submit "BTCBRL" it.side it.quantity with
        | .ok _ =>
          ((create_block sha fr chain now (opOf it)).2,
            [if it.side = "BUY" then "Compra BTC registrada no blockchain interno"
              else "Venda BTC registrada no blockchain interno"])
        | .err e =>
          (chain,
            [(if it.side = "BUY" then "Erro ao comprar BTC: " else "Erro ao vender BTC: ") ++ e]) := by
  simp only [trade_step, Ferrari.decide, opOf]
  split_ifs <;> simp

theorem hasKey_of_find {α : Type} (d : List (String × α)) (k : String) (v : α)
    (h : dictFind? d k = some v) : hasKey d k = true := by
  simp [hasKey, h]

theorem isEmpty_false_of_find {α : Type} (d : List (String × α)) (k : String) (v : α)
    (h : dictFind? d k = some v) : d.isEmpty = false := by
  cases d with
  | nil => simp [dictFind?] at h
  | cons p rest => rfl

theorem api_ordem_valid (sha : String → String) (fr : ℚ → String)
    (submit : String → String → ℚ → OrderResult) (price : ℚ)
    (chain : List Block) (now : ℚ) (d : List (String × JVal)) (s : String) (q : ℚ)
    (hs : dictFind? d "side" = some (.jstr s))
    (hq : dictFind? d "quantity" = some (.jnum q)) :
    api_ordem sha fr submit price chain now (some d) =
      match submit "BTCBRL" s.toUpper q with
      | .err e => ⟨.ok (500, .erro e), chain, []⟩
      | .ok order =>
        ⟨.ok (200, .ordem order (create_block sha fr chain now
            { side := s.toUpper, asset := "BTC",
              quantity := .finite q, price := .finite price }).1),
          (create_block sha fr chain now
            { side := s.toUpper, asset := "BTC",
              quantity := .finite q, price := .finite price }).2, []⟩ := by
  have hc : (d.isEmpty || !hasKey d "side" || !hasKey d "quantity") = false := by
    rw [isEmpty_false_of_find d "side" _ hs, hasKey_of_find d "side" _ hs,
      hasKey_of_find d "quantity" _ hq]
    rfl
  simp only [api_ordem, hc, Bool.false_eq_true, if_false, hs, hq, Option.getD_some,
    pyupper, pyfloat]

/-! ## Claim C2 -/

/-- C2 amended: the ledger append is transactionally coupled to submission
success on both paths. In a poll cycle: no intent means no append and no
log entry; a failed submission leaves the chain unchanged and logs an
error; a successful submission appends exactly one block whose operation
fields equal the submitted intent. For a manual /ordem request with valid
fields: a failed submission leaves the chain unchanged and returns a
structured 500 error — but writes no log entry (the handler contains no
logging call) — and a successful submission appends exactly one block
whose operation carries the requested side and quantity and the fetched
price. -/
theorem C2_transactional_coupling (sha : String → String) (fr : ℚ → String)
    (submit : String → String → ℚ → OrderResult) (btc_price : ℚ)
    (bal : List (String × ℚ)) (chain : List Block) (now : ℚ) (price : ℚ) :
    (Ferrari.decide btc_price bal = none →
      trade_step sha fr submit btc_price bal chain now = (chain, [])) ∧
    (∀ it e, Ferrari.decide btc_price bal = some it →
      submit "BTCBRL" it.side it.quantity = .err e →
      (trade_step sha fr submit btc_price bal chain now).1 = chain ∧
      (trade_step sha fr submit btc_price bal chain now).2 ≠ []) ∧
    (∀ it r, Ferrari.decide btc_price bal = some it →
      submit "BTCBRL" it.side it.quantity = .ok r →
      (trade_step sha fr submit btc_price bal chain now).1
        = chain ++ [(create_block sha fr chain now (opOf it)).1] ∧
      (create_block sha fr chain now (opOf it)).1.operation = opOf it) ∧
    (∀ d s q e, dictFind? d "side" = some (.jstr s) →
      dictFind? d "quantity" = some (.jnum q) →
      submit "BTCBRL" s.toUpper q = .err e →
      (api_ordem sha fr submit price chain now (some d)).chain = chain ∧
      (api_ordem sha fr submit price chain now (some d)).response = .ok (500, .erro e) ∧
      (api_ordem sha fr submit price chain now (some d)).log = []) ∧
    (∀ d s q r, dictFind? d "side" = some (.jstr s) →
      dictFind? d "quantity" = some (.jnum q) →
      submit "BTCBRL" s.toUpper q = .ok r →
      (api_ordem sha fr submit price chain now (some d)).chain
        = chain ++ [(create_block sha fr chain now
            { side := s.toUpper, asset := "BTC",
              quantity := .finite q, price := .finite price }).1]) := by
  have ht := trade_step_eq sha fr submit btc_price bal chain now
  refine ⟨?_, ?_, ?_, ?_, ?_⟩
  · intro h
    rw [ht, h]
  · intro it e hdec hsub
    rw [hdec] at ht
    simp only at ht
    rw [hsub] at ht
    rw [ht]
    exact ⟨rfl, by simp⟩
  · intro it r hdec hsub
    rw [hdec] at ht
    simp only at ht
    rw [hsub] at ht
    rw [ht]
    exact ⟨create_block_snoc sha fr chain now (opOf it), rfl⟩
  · intro d s q e hs hq hsub
    have ha := api_ordem_valid sha fr submit price chain now d s q hs hq
    rw [hsub] at ha
    rw [ha]
    exact ⟨rfl, rfl, rfl⟩
  · intro d s q r hs hq hsub
    have ha := api_ordem_valid sha fr submit price chain now d s q hs hq
    rw [hsub] at ha
    rw [ha]
    exact create_block_snoc sha fr chain now _

/-- A submission stand-in that always fails. -/
def wsubmit_fail : String → String → ℚ → OrderResult := fun _ _ _ => .err "order rejected"

/-- A valid manual order request body. -/
def wreq : List (String × JVal) := [("side", .jstr "BUY"), ("quantity", .jnum 1)]

/-- C2 counterexample: a manual /ordem request whose submission fails
leaves the chain unchanged and returns a structured 500 — but the error is
not logged (the handler writes no log entry), contradicting the claim that
every failed submission logs the error. -/
theorem C2_counterexample :
    (api_ordem wsha wfr wsubmit_fail 100 [] 0 (some wreq)).response
      = .ok (500, .erro "order rejected") ∧
    (api_ordem wsha wfr wsubmit_fail 100 [] 0 (some wreq)).chain = [] ∧
    (api_ordem wsha wfr wsubmit_fail 100 [] 0 (some wreq)).log = [] :=
  ⟨rfl, rfl, rfl⟩

/-- Witness for C2 amended: a concrete cycle with price 9000 and 90000 BRL
produces a BUY intent; the failing submission leaves the chain empty and a
log entry is written. -/
theorem C2_transactional_coupling_witness :
    Ferrari.decide 9000 [("BRL", (90000 : ℚ))] = some
      { side := "BUY", asset := "BTC",
        quantity := dictGet [("BRL", (90000 : ℚ))] "BRL" 0 / 9000, price := 9000 } ∧
    wsubmit_fail "BTCBRL" "BUY" (dictGet [("BRL", (90000 : ℚ))] "BRL" 0 / 9000)
      = .err "order rejected" ∧
    (trade_step wsha wfr wsubmit_fail 9000 [("BRL", (90000 : ℚ))] [] 0).1 = [] ∧
    (trade_step wsha wfr wsubmit_fail 9000 [("BRL", (90000 : ℚ))] [] 0).2 ≠ [] := by
  have hdec : Ferrari.decide 9000 [("BRL", (90000 : ℚ))] = some
      { side := "BUY", asset := "BTC",
        quantity := dictGet [("BRL", (90000 : ℚ))] "BRL" 0 / 9000, price := 9000 } := by
    have h1 : (0 : ℚ) < 9000 := by norm_num
    have h2 : (9000 : ℚ) < 100000 := by norm_num
    have h3 : (10 : ℚ) < dictGet [("BRL", (90000 : ℚ))] "BRL" 0 := by
      norm_num [dictGet, dictFind?]
    simp [Ferrari.decide, h1, h2, h3]
  have h2 := (C2_transactional_coupling wsha wfr wsubmit_fail 9000
    [("BRL", (90000 : ℚ))] [] 0 0).2.1 _ "order rejected" hdec rfl
  exact ⟨hdec, rfl, h2.1, h2.2⟩

/-! ## Claim C6 -/

/-- A request body whose side field is a number, not a string. -/
def wreq_bad : List (String × JVal) := [("side", .jnum 5), ("quantity", .jnum 1)]

/-- C6 counterexample: a /ordem request whose side field is a number (a
present but invalid field) makes the handler raise an AttributeError from
`data["side"].upper()` outside the try/except — an unhandled fault, not a
structured error response, contradicting the claim that no request
produces an unhandled fault. -/
theorem C6_counterexample :
    (api_ordem wsha wfr wsubmit_fail 100 [] 0 (some wreq_bad)).response
      = .error "AttributeError" :=
  rfl

/-- C6 amended: a missing body or missing side/quantity key yields a
structured 400 error and leaves the chain unchanged; with a string side
and numeric quantity, a downstream submission failure yields a structured
500 error; but a body whose side is not a string (or whose quantity string
does not parse) raises an uncaught exception from the code that runs
before the try block, so the handler does not return a structured error in
every case. -/
theorem C6_error_responses (sha : String → String) (fr : ℚ → String)
    (submit : String → String → ℚ → OrderResult) (price : ℚ)
    (chain : List Block) (now : ℚ) :
    (api_ordem sha fr submit price chain now none).response
      = .ok (400, .erro "Envie JSON com side e quantity") ∧
    (api_ordem sha fr submit price chain now none).chain = chain ∧
    (∀ d, (d.isEmpty || !hasKey d "side" || !hasKey d "quantity") = true →
      (api_ordem sha fr submit price chain now (some d)).response
        = .ok (400, .erro "Envie JSON com side e quantity") ∧
      (api_ordem sha fr submit price chain now (some d)).chain = chain) ∧
    (∀ d s q e, dictFind? d "side" = some (.jstr s) →
      dictFind? d "quantity" = some (.jnum q) →
      submit "BTCBRL" s.toUpper q = .err e →
      (api_ordem sha fr submit price chain now (some d)).response = .ok (500, .erro e)) ∧
    (∀ d n, dictFind? d "side" = some (.jnum n) →
      dictFind? d "quantity" = some (.jnum 1) →
      (api_ordem sha fr submit price chain now (some d)).response = .error "AttributeError" ∧
      (api_ordem sha fr submit price chain now (some d)).chain = chain) := by
  refine ⟨rfl, rfl, ?_, ?_, ?_⟩
  · intro d h
    constructor <;> simp [api_ordem, h]
  · intro d s q e hs hq hsub
    have ha := api_ordem_valid sha fr submit price chain now d s q hs hq
    rw [hsub] at ha
    rw [ha]
  · intro d n hs hq
    have hc : (d.isEmpty || !hasKey d "side" || !hasKey d "quantity") = false := by
      rw [isEmpty_false_of_find d "side" _ hs, hasKey_of_find d "side" _ hs,
        hasKey_of_find d "quantity" _ hq]
      rfl
    constructor <;>
      simp [api_ordem, hc, hs, hq, pyupper]

/-- Witness for C6 amended: an empty body yields the structured 400, and a
valid body with a failing submission yields the structured 500. -/
theorem C6_error_responses_witness :
    ((([] : List (String × JVal)).isEmpty || !hasKey ([] : List (String × JVal)) "side"
        || !hasKey ([] : List (String × JVal)) "quantity") = true) ∧
    (api_ordem wsha wfr wsubmit_fail 100 [] 0 (some [])).response
      = .ok (400, .erro "Envie JSON com side e quantity") ∧
    dictFind? wreq "side" = some (.jstr "BUY") ∧
    (api_ordem wsha wfr wsubmit_fail 100 [] 0 (some wreq)).response
      = .ok (500, .erro "order rejected") :=
  ⟨rfl,
    ((C6_error_responses wsha wfr wsubmit_fail 100 [] 0).2.2.1 [] rfl).1,
    rfl,
    (C6_error_responses wsha wfr wsubmit_fail 100 [] 0).2.2.2.1 wreq "BUY" 1
      "order rejected" rfl rfl rfl⟩

end Ferrari
